import Mathlib

/-!
Verification of the structural pattern-matching engine described by the
repository's specification and exercised by `src/content/pattern.ipynb`.
The notebook demonstrates the engine on concrete values (literal arms,
or-patterns, guards, sequence/mapping/object destructuring, and the
exhaustiveness discipline); the engine itself is the language runtime, so
the definitions below are modelled from the specification and validated
against the notebook's recorded inputs and outputs.
-/

namespace PatternCookbook

/-- Modelled from the spec: a nominal Record type.  Its tag (`name`) is
stable, `matchArgs` is the declared positional field order (fixed at the
type's definition time, as with `__match_args__` in the notebook), and
`ancestors` lists the tags of the type and all of its supertypes (every
type has `"object"` among its ancestors). -/
structure RecordTy where
  name : String
  matchArgs : List String
  ancestors : List String
deriving DecidableEq, Repr

/-- Modelled from the spec: scalar values — booleans, numbers, strings and
the null-value singleton.  Distinct scalar kinds are distinct values: there
is no coercion between, say, booleans and integers. -/
inductive Scalar where
  | int (n : Int)
  | bool (b : Bool)
  | str (s : String)
  | none
deriving DecidableEq, Repr

/-- Modelled from the spec: the Value model — a tagged union over scalars,
ordered sequences, keyed mappings and nominal records with named fields. -/
inductive Value where
  | scalar (s : Scalar)
  | sequence (elems : List Value)
  | mapping (entries : List (Scalar × Value))
  | record (ty : RecordTy) (fields : List (String × Value))

mutual

/-- Modelled from the spec: the value model's equality, used by literal
patterns.  Scalars compare by scalar identity/equality (distinct scalar
kinds are never equal), sequences and mappings compare element-wise, and
records compare by type tag and fields. -/
def valueEq : Value → Value → Bool
  | .scalar a, .scalar b => decide (a = b)
  | .sequence xs, .sequence ys => valueListEq xs ys
  | .mapping xs, .mapping ys => valuePairsEq xs ys
  | .record t fs, .record u gs => decide (t = u) && valueFieldsEq fs gs
  | _, _ => false
termination_by structural a _ => a

/-- Element-wise equality of sequence contents. -/
def valueListEq : List Value → List Value → Bool
  | [], [] => true
  | x :: xs, y :: ys => valueEq x y && valueListEq xs ys
  | _, _ => false
termination_by structural xs _ => xs

/-- Entry-wise equality of mapping contents. -/
def valuePairsEq : List (Scalar × Value) → List (Scalar × Value) → Bool
  | [], [] => true
  | (k, x) :: xs, (l, y) :: ys => decide (k = l) && valueEq x y && valuePairsEq xs ys
  | _, _ => false
termination_by structural xs _ => xs

/-- Field-wise equality of record contents. -/
def valueFieldsEq : List (String × Value) → List (String × Value) → Bool
  | [], [] => true
  | (k, x) :: xs, (l, y) :: ys => decide (k = l) && valueEq x y && valueFieldsEq xs ys
  | _, _ => false
termination_by structural xs _ => xs

end

/-- Modelled from the spec: the Pattern model — a closed tagged union over
the eight pattern kinds. -/
inductive Pattern where
  | literal (w : Value)
  | wildcard
  | capture (n : String)
  | or (alts : List Pattern)
  | as (inner : Pattern) (n : String)
  | sequence (elements : List Pattern) (star : Option (Nat × Option String))
  | mapping (entries : List (Scalar × Pattern)) (rest : Option String)
  | object (tag : RecordTy) (positional : List Pattern) (named : List (String × Pattern))

/-- Modelled from the spec: the two failure outcomes of the Matcher.
`noMatch` is the ordinary non-error mismatch result; `conflictingBinding`
reports two non-alternative sub-patterns claiming the same capture name. -/
inductive MatchFailure where
  | noMatch
  | conflictingBinding
deriving DecidableEq, Repr

/-- A binding environment: an insertion-ordered mapping from capture names
to values. -/
abbrev Env := List (String × Value)

/-- Two environments are disjoint when no capture name occurs in both. -/
def EnvDisjoint (a b : Env) : Prop := ∀ p ∈ a, ∀ q ∈ b, p.1 ≠ q.1

instance (a b : Env) : Decidable (EnvDisjoint a b) :=
  inferInstanceAs (Decidable (∀ p ∈ a, ∀ q ∈ b, p.1 ≠ q.1))

/-- Modelled from the spec: `merge` concatenates two environments and
fails with `conflictingBinding` if a name appears in both. -/
def mergeEnv (a b : Env) : Except MatchFailure Env :=
  if EnvDisjoint a b then .ok (a ++ b) else .error .conflictingBinding

/-- Look up a key of a mapping value. -/
def lookupKey (k : Scalar) : List (Scalar × Value) → Option Value
  | [] => Option.none
  | (g, w) :: rest => if g = k then some w else lookupKey k rest

/-- Look up a named field of a record value. -/
def lookupStr (f : String) : List (String × Value) → Option Value
  | [] => Option.none
  | (g, w) :: rest => if g = f then some w else lookupStr f rest

mutual

/-- Modelled from the spec: the Matcher.  `matchPat p v` returns the
binding environment of a successful match, or a failure; a structural
mismatch is the ordinary result `noMatch`, never an exception. -/
def matchPat : Pattern → Value → Except MatchFailure Env
  | .literal w, v => if valueEq w v then .ok [] else .error .noMatch
  | .wildcard, _ => .ok []
  | .capture n, v => .ok [(n, v)]
  | .or alts, v => matchOr alts v
  | .as p n, v => do
      let ρ ← matchPat p v
      mergeEnv ρ [(n, v)]
  | .sequence es star, v =>
      match v with
      | .sequence xs => matchSeq es star xs
      | _ => .error .noMatch
  | .mapping entries rest, v =>
      match v with
      | .mapping m => do
          let ρ ← matchEntries entries m
          match rest with
          | some n =>
              mergeEnv ρ
                [(n, .mapping (m.filter (fun e => !(entries.any (fun e' => e'.1 == e.1)))))]
          | Option.none => .ok ρ
      | _ => .error .noMatch
  | .object tag pos named, v =>
      match v with
      | .record ty fields =>
          if ty.ancestors.contains tag.name then do
            let ρ₁ ← matchPos tag.matchArgs pos fields
            let ρ₂ ← matchNamed named fields
            mergeEnv ρ₁ ρ₂
          else .error .noMatch
      | _ => .error .noMatch
termination_by structural p _ => p

/-- Or-pattern alternatives, tried left to right: the first result that is
not `noMatch` wins; if every alternative fails, `noMatch`. -/
def matchOr : List Pattern → Value → Except MatchFailure Env
  | [], _ => .error .noMatch
  | p :: ps, v =>
      match matchPat p v with
      | .error .noMatch => matchOr ps v
      | r => r
termination_by structural ps _ => ps

/-- Sequence-pattern elements against the elements of a sequence value.
Without a star the lengths must agree exactly; with a star at position `p`
the elements before `p` match the prefix, the elements after `p` match the
suffix, and the star name (when present) binds the middle slice as a new
sequence value. -/
def matchSeq : List Pattern → Option (Nat × Option String) → List Value →
    Except MatchFailure Env
  | [], Option.none, [] => .ok []
  | [], Option.none, _ :: _ => .error .noMatch
  | _ :: _, Option.none, [] => .error .noMatch
  | p :: ps, Option.none, x :: xs => do
      let ρ ← matchPat p x
      let ρ' ← matchSeq ps Option.none xs
      mergeEnv ρ ρ'
  | [], some (0, name), xs =>
      (match name with
       | some n => .ok [(n, .sequence xs)]
       | Option.none => .ok [])
  | [], some (_ + 1, _), _ => .error .noMatch
  | p :: ps, some (0, name), xs =>
      if ps.length + 1 ≤ xs.length then
        match xs.drop (xs.length - (ps.length + 1)) with
        | [] => .error .noMatch
        | y :: ys => do
            let ρ₀ ←
              (match name with
               | some n =>
                   Except.ok [(n, Value.sequence (xs.take (xs.length - (ps.length + 1))))]
               | Option.none => Except.ok ([] : Env))
            let ρ₁ ← matchPat p y
            let ρ₂ ← matchSeq ps Option.none ys
            let ρ' ← mergeEnv ρ₁ ρ₂
            mergeEnv ρ₀ ρ'
      else .error .noMatch
  | _ :: _, some (_ + 1, _), [] => .error .noMatch
  | p :: ps, some (q + 1, name), x :: xs => do
      let ρ ← matchPat p x
      let ρ' ← matchSeq ps (some (q, name)) xs
      mergeEnv ρ ρ'
termination_by structural es _ _ => es

/-- Mapping-pattern entries: each listed key must be present in the value
and its value must match the sub-pattern; keys of the value not listed are
never consulted (partial matching). -/
def matchEntries : List (Scalar × Pattern) → List (Scalar × Value) →
    Except MatchFailure Env
  | [], _ => .ok []
  | (k, q) :: es, m =>
      match lookupKey k m with
      | Option.none => .error .noMatch
      | some w => do
          let ρ ← matchPat q w
          let ρ' ← matchEntries es m
          mergeEnv ρ ρ'
termination_by structural es _ => es

/-- Positional object sub-patterns, matched against the pattern type's
declared positional field order, left to right.  A field named by the
declared order but absent from the value is an ordinary `noMatch`. -/
def matchPos : List String → List Pattern → List (String × Value) →
    Except MatchFailure Env
  | _, [], _ => .ok []
  | [], _ :: _, _ => .error .noMatch
  | f :: fs, p :: ps, fields =>
      match lookupStr f fields with
      | Option.none => .error .noMatch
      | some w => do
          let ρ ← matchPat p w
          let ρ' ← matchPos fs ps fields
          mergeEnv ρ ρ'
termination_by structural _ ps _ => ps

/-- Named object sub-patterns, matched against fields by name.  A named
field the value does not have is an ordinary `noMatch`, not an error. -/
def matchNamed : List (String × Pattern) → List (String × Value) →
    Except MatchFailure Env
  | [], _ => .ok []
  | (f, q) :: es, fields =>
      match lookupStr f fields with
      | Option.none => .error .noMatch
      | some w => do
          let ρ ← matchPat q w
          let ρ' ← matchNamed es fields
          mergeEnv ρ ρ'
termination_by structural es _ => es

end

/-- Modelled from the spec: one arm of a case list — a pattern, an
optional guard evaluated with the produced environment visible to it, and
the action token returned to the caller when the arm wins. -/
structure Case where
  pattern : Pattern
  guard : Option (Env → Bool)
  action : String

/-- Modelled from the spec: the Case Selector.  Iterates the cases in
declaration order; for each, runs the Matcher; on success, if a guard is
present it is evaluated with the produced environment — a false guard
moves selection to the next case entirely.  Returns the first
(environment, token) pair that matches and passes its guard; `none` (a
valid, non-error outcome) if no case wins. -/
def select (v : Value) : List Case → Option (Env × String)
  | [] => Option.none
  | c :: cs =>
      match matchPat c.pattern v with
      | .ok ρ =>
          match c.guard with
          | some g => if g ρ then some (ρ, c.action) else select v cs
          | Option.none => some (ρ, c.action)
      | .error _ => select v cs

/-- Modelled from the spec: the construction-time configuration errors for
patterns (`MalformedPattern`), detected eagerly so that malformed patterns
never reach the Matcher. -/
inductive MalformedPattern where
  | tooManyPositional
deriving DecidableEq, Repr

/-- Modelled from the spec: construction of an object pattern.  Supplying
more positional sub-patterns than the type declares positional fields for
is a configuration error reported here, at pattern-construction time, not
at match time. -/
def mkObject (tag : RecordTy) (pos : List Pattern) (named : List (String × Pattern)) :
    Except MalformedPattern Pattern :=
  if pos.length > tag.matchArgs.length then .error .tooManyPositional
  else .ok (.object tag pos named)

/-- Modelled from the spec: whether a pattern covers one variant (given by
its canonical instance value) unconditionally — the pattern is a Wildcard,
a Capture, a Literal equal to the variant's value, or an Object pattern
with no sub-patterns whose tag the variant's type is a subtype of. -/
def coversVariant : Pattern → Value → Bool
  | .wildcard, _ => true
  | .capture _, _ => true
  | .literal w, v => valueEq w v
  | .object tag [] [], v =>
      match v with
      | .record ty _ => ty.ancestors.contains tag.name
      | _ => false
  | _, _ => false

/-- Modelled from the spec: the Exhaustiveness Analyzer.  Seeds a
"remaining variants" set with all declared variants of the closed subject
type; each guard-free case removes the variants its pattern covers
unconditionally; a case with a guard never removes a variant.  Reports the
names of the variants still remaining. -/
def check (variants : List (String × Value)) (cases : List Case) : List String :=
  (cases.foldl
    (fun remaining c =>
      match c.guard with
      | some _ => remaining
      | Option.none => remaining.filter (fun nv => !(coversVariant c.pattern nv.2)))
    variants).map Prod.fst

/-- A read-through field cache for one record under match, modelled from
the spec's design note for lazy named-field accessors (such as the
notebook's `cached_property`): a cache keyed by field name, populated on
first access. -/
abbrev Cache := List (String × Value)

/-- Read a named field through the cache: a hit answers from the cache, a
miss reads the underlying field and stores it. -/
def readField (fields : List (String × Value)) (c : Cache) (f : String) :
    Option Value × Cache :=
  match lookupStr f c with
  | some w => (some w, c)
  | Option.none =>
      match lookupStr f fields with
      | some w => (some w, (f, w) :: c)
      | Option.none => (Option.none, c)

/-- A cache is consistent with a record's fields when every cached entry
agrees with the underlying field value (the contract of a memoized
computed field). -/
def Consistent (c : Cache) (fields : List (String × Value)) : Prop :=
  ∀ e ∈ c, lookupStr e.1 fields = some e.2

/-- Positional object sub-patterns with field reads going through the
cache. -/
def matchPosC : List String → List Pattern → List (String × Value) → Cache →
    Except MatchFailure Env × Cache
  | _, [], _, c => (.ok [], c)
  | [], _ :: _, _, c => (.error .noMatch, c)
  | f :: fs, p :: ps, fields, c =>
      match readField fields c f with
      | (Option.none, c') => (.error .noMatch, c')
      | (some w, c') =>
          match matchPat p w with
          | .error e => (.error e, c')
          | .ok ρ =>
              match matchPosC fs ps fields c' with
              | (.error e, c'') => (.error e, c'')
              | (.ok ρ', c'') => (mergeEnv ρ ρ', c'')

/-- Named object sub-patterns with field reads going through the cache. -/
def matchNamedC : List (String × Pattern) → List (String × Value) → Cache →
    Except MatchFailure Env × Cache
  | [], _, c => (.ok [], c)
  | (f, q) :: es, fields, c =>
      match readField fields c f with
      | (Option.none, c') => (.error .noMatch, c')
      | (some w, c') =>
          match matchPat q w with
          | .error e => (.error e, c')
          | .ok ρ =>
              match matchNamedC es fields c' with
              | (.error e, c'') => (.error e, c'')
              | (.ok ρ', c'') => (mergeEnv ρ ρ', c'')

/-- Object-pattern matching with the value's named-field accessor
instrumented by a memoizing cache, as in the spec's design note.  Apart
from the cache threading it follows `matchPat`'s object case exactly. -/
def matchObjectC (tag : RecordTy) (pos : List Pattern) (named : List (String × Pattern))
    (v : Value) (c : Cache) : Except MatchFailure Env × Cache :=
  match v with
  | .record ty fields =>
      if ty.ancestors.contains tag.name then
        match matchPosC tag.matchArgs pos fields c with
        | (.error e, c') => (.error e, c')
        | (.ok ρ₁, c') =>
            match matchNamedC named fields c' with
            | (.error e, c'') => (.error e, c'')
            | (.ok ρ₂, c'') => (mergeEnv ρ₁ ρ₂, c'')
      else (.error .noMatch, c)
  | _ => (.error .noMatch, c)

/-! Concrete values and case lists from `src/content/pattern.ipynb`. -/

/-- Shorthand for an integer scalar value. -/
def iv (n : Int) : Value := .scalar (.int n)

/-- Shorthand for a string scalar value. -/
def sv (s : String) : Value := .scalar (.str s)

/-- The first arms of the notebook's opening example (`val = 1` against
`case 0`, `case True`, `case 1 | 2`, then a wildcard arm). -/
def literalCases : List Case :=
  [⟨.literal (iv 0), Option.none, "0"⟩,
   ⟨.literal (.scalar (.bool true)), Option.none, "true"⟩,
   ⟨.or [.literal (iv 1), .literal (iv 2)], Option.none, "1 or 2"⟩,
   ⟨.wildcard, Option.none, "Wildcard"⟩]

/-- The notebook's `Link` dataclass: declared positional field order
`(val, link)`. -/
def linkTy : RecordTy := ⟨"Link", ["val", "link"], ["Link", "object"]⟩

/-- The universal supertype used by the notebook's `object(...)` patterns. -/
def objectTy : RecordTy := ⟨"object", [], ["object"]⟩

/-- Build one `Link` record value. -/
def mkLink (n : Int) (rest : Value) : Value :=
  .record linkTy [("val", iv n), ("link", rest)]

/-- `Link(1, Link(0))` — the two innermost links of the notebook chain. -/
def link1 : Value := mkLink 1 (mkLink 0 (.scalar .none))

/-- `Link(3, Link(2, Link(1, Link(0))))`. -/
def link3 : Value := mkLink 3 (mkLink 2 link1)

/-- `Link(4, Link(3, ...))`. -/
def link4 : Value := mkLink 4 link3

/-- The notebook's `links = Link(5, Link(4, Link(3, Link(2, Link(1, Link(0))))))`. -/
def links : Value := mkLink 5 link4

/-- The case list of the notebook's object-matching example, including the
arm `object(blah=val)` that names an attribute `Link` values do not have. -/
def linkCases : List Case :=
  [⟨.object linkTy [] [("val", .literal (iv 1))], Option.none,
      "no need to exhaustively match"⟩,
   ⟨.object objectTy [] [("val", .literal (iv 1))], Option.none,
      "object is a super class of everything"⟩,
   ⟨.object objectTy [] [("blah", .capture "val")], Option.none,
      "the object in question does not have attribute blah"⟩,
   ⟨.object linkTy [] [("val", .literal (iv 5)),
        ("link", .object linkTy [] [("val", .literal (iv 3))])], Option.none,
      "Nested match pattern"⟩,
   ⟨.object linkTy [] [("val", .capture "first"),
        ("link", .as (.object linkTy [] [("val", .literal (iv 4)),
            ("link", .capture "third")]) "second")], Option.none,
      "Nested capture pattern with a mixture of variable and as"⟩]

/-- The notebook's `Pair` class with `__match_args__ = ("first", "second")`. -/
def pairTy : RecordTy := ⟨"Pair", ["first", "second"], ["Pair", "object"]⟩

/-- The record value `Record(1, 2)` of the `Pair` type. -/
def pair12 : Value := .record pairTy [("first", iv 1), ("second", iv 2)]

/-- The sequence-matching arms of the notebook's `match "abc"` example:
`case "a", *_`, `case ["a"] | []`, `case _`. -/
def strCases : List Case :=
  [⟨.sequence [.literal (sv "a")] (some (1, Option.none)), Option.none, "matched first"⟩,
   ⟨.or [.sequence [.literal (sv "a")] Option.none, .sequence [] Option.none],
      Option.none, "Brackets are needed only when you match a sequence of 1 or 0"⟩,
   ⟨.wildcard, Option.none, "Not matched"⟩]

/-- The notebook's 3-variant `MyEnum` type used in the exhaustive-matching
section. -/
def myEnumTy : RecordTy := ⟨"MyEnum", [], ["MyEnum", "object"]⟩

/-- The enum member `MyEnum.A`. -/
def enumA : Value := .record myEnumTy [("name", sv "A")]

/-- The enum member `MyEnum.B`. -/
def enumB : Value := .record myEnumTy [("name", sv "B")]

/-- The enum member `MyEnum.C`. -/
def enumC : Value := .record myEnumTy [("name", sv "C")]

/-- The three declared variants of `MyEnum`, each with its canonical
instance. -/
def myEnumVariants : List (String × Value) := [("A", enumA), ("B", enumB), ("C", enumC)]

/-- A case list covering `A` and `B` unconditionally and `C` only behind a
guard. -/
def enumCases : List Case :=
  [⟨.literal enumA, Option.none, "0"⟩,
   ⟨.literal enumB, Option.none, "1"⟩,
   ⟨.literal enumC, some (fun _ => true), "2"⟩]

/-- A two-case list whose first pattern always matches but whose guard
rejects (the guard reads the produced binding of `x` and tests it against
zero), and whose second case is a wildcard. -/
def guardCases : List Case :=
  [⟨.capture "x", some (fun ρ => match lookupStr "x" ρ with
      | some w => valueEq w (iv 0)
      | Option.none => false), "first"⟩,
   ⟨.wildcard, Option.none, "second"⟩]

/-- The notebook's property/`cached_property` example: `Pair(3, 4)` with
its stored fields and its computed fields `manhattan = 7` and
`linear = 5`. -/
def pair34Fields : List (String × Value) :=
  [("first", iv 3), ("second", iv 4), ("manhattan", iv 7), ("linear", iv 5)]

/-! Helper lemmas. -/

/-- An `Except` bind is `ok` exactly when both stages are. -/
theorem except_bind_ok {α β : Type} (x : Except MatchFailure α) (f : α → Except MatchFailure β)
    (c : β) : x >>= f = .ok c ↔ ∃ b, x = .ok b ∧ f b = .ok c := by
  cases x <;> simp [Bind.bind, Except.bind]

/-- `mergeEnv` succeeds exactly on disjoint environments, and then
concatenates. -/
theorem mergeEnv_ok_iff (a b c : Env) :
    mergeEnv a b = .ok c ↔ EnvDisjoint a b ∧ c = a ++ b := by
  unfold mergeEnv
  split <;> simp_all [eq_comm]

/-- Every environment is disjoint from the empty environment. -/
theorem envDisjoint_nil_right (a : Env) : EnvDisjoint a [] := by
  intro p hp q hq
  simp at hq

/-- The empty environment is disjoint from every environment. -/
theorem envDisjoint_nil_left (b : Env) : EnvDisjoint [] b := by
  intro p hp
  simp at hp

/-- A successful string lookup comes from an entry of the list. -/
theorem lookupStr_some_mem {f : String} {l : List (String × Value)} {w : Value}
    (h : lookupStr f l = some w) : (f, w) ∈ l := by
  induction l with
  | nil => simp [lookupStr] at h
  | cons e rest ih =>
      obtain ⟨g, w'⟩ := e
      by_cases hg : g = f
      · subst hg
        simp [lookupStr] at h
        simp [h]
      · simp [lookupStr, hg] at h
        exact List.mem_cons_of_mem _ (ih h)

/-! Claim theorems. -/

/-- C1: for every value and or-pattern, the Matcher tries the alternatives
left to right and returns the environment of the first alternative that
succeeds, with `noMatch` exactly when all alternatives fail; concretely,
`Or([Literal(3), As(Wildcard, "x")])` matched against `3` succeeds with an
empty environment (the first alternative wins) and against `5` succeeds
binding `x = 5`. -/
theorem or_first_success_c1 :
    (∀ p ps v ρ, matchPat p v = .ok ρ → matchPat (.or (p :: ps)) v = .ok ρ)
    ∧ (∀ p ps v, matchPat p v = .error .noMatch →
        matchPat (.or (p :: ps)) v = matchPat (.or ps) v)
    ∧ (∀ ps v, matchPat (.or ps) v = .error .noMatch ↔
        ∀ p ∈ ps, matchPat p v = .error .noMatch)
    ∧ matchPat (.or [.literal (iv 3), .as .wildcard "x"]) (iv 3) = .ok []
    ∧ matchPat (.or [.literal (iv 3), .as .wildcard "x"]) (iv 5) = .ok [("x", iv 5)] := by
  refine ⟨?_, ?_, ?_, rfl, rfl⟩
  · intro p ps v ρ h
    simp [matchPat, matchOr, h]
  · intro p ps v h
    simp [matchPat, matchOr, h]
  · intro ps v
    induction ps with
    | nil => simp [matchPat, matchOr]
    | cons p ps ih =>
        simp only [matchPat] at ih ⊢
        cases h : matchPat p v with
        | ok ρ => simp [matchOr, h]
        | error f =>
            cases f with
            | noMatch => simp [matchOr, h, ih]
            | conflictingBinding => simp [matchOr, h]

/-- C1 witness. -/
theorem or_first_success_c1_w : matchPat (.or [.wildcard]) (iv 0) = .ok [] :=
  or_first_success_c1.1 .wildcard [] (iv 0) [] rfl

/-- C2: a case whose pattern matches but whose guard evaluates to false
does not stop selection — the Case Selector moves to the next case
entirely; concretely, in a two-case list where case 1's pattern matches
but its guard is false and case 2 is a wildcard, case 2's action token is
returned. -/
theorem guard_fallthrough_c2 :
    (∀ (c : Case) cs v ρ g, matchPat c.pattern v = .ok ρ → c.guard = some g →
        g ρ = false → select v (c :: cs) = select v cs)
    ∧ select (iv 5) guardCases = some ([], "second") := by
  refine ⟨?_, rfl⟩
  intro c cs v ρ g h1 h2 h3
  simp [select, h1, h2, h3]

/-- C2 witness. -/
theorem guard_fallthrough_c2_w :
    select (iv 5) guardCases = select (iv 5) [⟨.wildcard, Option.none, "second"⟩] :=
  guard_fallthrough_c2.1
    ⟨.capture "x", some (fun ρ => match lookupStr "x" ρ with
        | some w => valueEq w (iv 0)
        | Option.none => false), "first"⟩
    [⟨.wildcard, Option.none, "second"⟩] (iv 5) [("x", iv 5)] _ rfl rfl rfl

/-- C3: a literal pattern succeeds (binding nothing) exactly when the
value equals the literal under the value model's equality, and there is no
coercion across scalar kinds: the integer `1` fails against the boolean
literal `True` and against the literal `0`, but succeeds against the
literal `1`; in the notebook's opening case list, `val = 1` therefore
selects the `1 | 2` arm. -/
theorem literal_equality_c3 :
    (∀ w v, matchPat (.literal w) v = .ok [] ↔ valueEq w v = true)
    ∧ (∀ (n : Int) (b : Bool),
        matchPat (.literal (.scalar (.bool b))) (.scalar (.int n)) = .error .noMatch)
    ∧ (∀ (n m : Int), matchPat (.literal (iv m)) (iv n) = .ok [] ↔ m = n)
    ∧ matchPat (.literal (.scalar (.bool true))) (iv 1) = .error .noMatch
    ∧ matchPat (.literal (iv 0)) (iv 1) = .error .noMatch
    ∧ matchPat (.literal (iv 1)) (iv 1) = .ok []
    ∧ select (iv 1) literalCases = some ([], "1 or 2") := by
  refine ⟨?_, ?_, ?_, rfl, rfl, rfl, rfl⟩
  · intro w v
    simp only [matchPat]
    split <;> simp_all
  · intro n b
    simp [matchPat, valueEq]
  · intro n m
    simp [matchPat, valueEq, iv]

/-- C3 witness. -/
theorem literal_equality_c3_w : matchPat (.literal (iv 2)) (iv 2) = .ok [] :=
  (literal_equality_c3.1 (iv 2) (iv 2)).mpr rfl

/-- C5: a character-string value never matches a sequence pattern — for
every string and every sequence pattern the Matcher answers `noMatch` —
so the notebook's `match "abc"` falls through all sequence arms to the
wildcard arm. -/
theorem string_not_sequence_c5 :
    (∀ s es star, matchPat (.sequence es star) (.scalar (.str s)) = .error .noMatch)
    ∧ select (sv "abc") strCases = some ([], "Not matched") := by
  exact ⟨fun s es star => rfl, rfl⟩

/-- C5 witness. -/
theorem string_not_sequence_c5_w :
    matchPat (.sequence [] Option.none) (.scalar (.str "abc")) = .error .noMatch :=
  string_not_sequence_c5.1 "abc" [] Option.none

/-- C4: a sequence pattern with a star at position 1 and one element
pattern, applied to any sequence of length at least 1, matches the first
element against the element pattern and binds the star name to the middle
slice as a new sequence value; concretely, `[P, *rest]` on `[1,2,3,4]`
binds `rest = [2,3,4]`, and `["a", *rest]` on `["a","b","c"]` binds
`rest = ["b","c"]`. -/
theorem sequence_star_c4 :
    (∀ e n x xs ρ, matchPat e x = .ok ρ → (∀ b ∈ ρ, b.1 ≠ n) →
        matchPat (.sequence [e] (some (1, some n))) (.sequence (x :: xs)) =
          .ok (ρ ++ [(n, .sequence xs)]))
    ∧ matchPat (.sequence [.wildcard] (some (1, some "rest")))
        (.sequence [iv 1, iv 2, iv 3, iv 4]) =
        .ok [("rest", .sequence [iv 2, iv 3, iv 4])]
    ∧ matchPat (.sequence [.literal (sv "a")] (some (1, some "rest")))
        (.sequence [sv "a", sv "b", sv "c"]) =
        .ok [("rest", .sequence [sv "b", sv "c"])] := by
  refine ⟨?_, rfl, rfl⟩
  intro e n x xs ρ h hd
  have hdisj : EnvDisjoint ρ [(n, Value.sequence xs)] := by
    intro p hp q hq
    simp only [List.mem_singleton] at hq
    subst hq
    exact hd p hp
  simp [matchPat, matchSeq, h, mergeEnv, hdisj, Bind.bind, Except.bind]

/-- C4 witness. -/
theorem sequence_star_c4_w :
    matchPat (.sequence [.wildcard] (some (1, some "rest"))) (.sequence [iv 1, iv 2]) =
      .ok [("rest", .sequence [iv 2])] := by
  have := sequence_star_c4.1 .wildcard "rest" (iv 1) [iv 2] [] rfl (by simp)
  simpa using this

/-- C7: positional object sub-patterns are matched against the type's
declared positional field order, left to right (`[Capture "a", Capture
"b"]` on declared order `(f1, f2)` binds `a` to the `f1` field and `b` to
the `f2` field); supplying more positional sub-patterns than the type
declares fields for is rejected at pattern-construction time; and the
claim's concrete instance `Object(Pair, [Capture "a", Literal 2], [])`
against `Record(1, 2)` succeeds with `a = 1`. -/
theorem object_positional_c7 :
    (∀ tag pos named, tag.matchArgs.length < pos.length →
        mkObject tag pos named = .error .tooManyPositional)
    ∧ (∀ tag pos named, pos.length ≤ tag.matchArgs.length →
        mkObject tag pos named = .ok (.object tag pos named))
    ∧ (∀ nm f1 f2 anc ty fields v1 v2, (RecordTy.ancestors ty).contains nm = true →
        lookupStr f1 fields = some v1 → lookupStr f2 fields = some v2 →
        ("a" : String) ≠ "b" →
        matchPat (.object ⟨nm, [f1, f2], anc⟩ [.capture "a", .capture "b"] [])
          (.record ty fields) = .ok [("a", v1), ("b", v2)])
    ∧ matchPat (.object pairTy [.capture "a", .literal (iv 2)] []) pair12 =
        .ok [("a", iv 1)] := by
  refine ⟨?_, ?_, ?_, rfl⟩
  · intro tag pos named h
    simp [mkObject, h]
  · intro tag pos named h
    simp [mkObject, Nat.not_lt.mpr h]
  · intro nm f1 f2 anc ty fields v1 v2 hanc h1 h2 _
    have hmem : nm ∈ ty.ancestors := by simpa using hanc
    have hd2 : EnvDisjoint [("a", v1)] [("b", v2)] := by
      intro p hp q hq
      simp at hp hq
      simp [hp, hq]
    simp [matchPat, matchPos, matchNamed, hmem, h1, h2, mergeEnv, hd2,
      envDisjoint_nil_right, Bind.bind, Except.bind]

/-- C7 witness. -/
theorem object_positional_c7_w :
    mkObject pairTy [.wildcard, .wildcard, .wildcard] [] = .error .tooManyPositional :=
  object_positional_c7.1 pairTy [.wildcard, .wildcard, .wildcard] [] (by decide)

/-- C8: the exhaustiveness analyzer removes variants only via guard-free
cases — a case with a guard never removes a variant — and on the
notebook's 3-variant `MyEnum` with `A` and `B` covered unconditionally and
`C` only behind a guard, it reports exactly `C` as uncovered. -/
theorem exhaustiveness_c8 :
    (∀ variants (c : Case) cs g, c.guard = some g →
        check variants (c :: cs) = check variants cs)
    ∧ check myEnumVariants enumCases = ["C"] := by
  refine ⟨?_, rfl⟩
  intro variants c cs g h
  simp [check, h]

/-- C8 witness. -/
theorem exhaustiveness_c8_w :
    check myEnumVariants [⟨.literal enumC, some (fun _ => true), "2"⟩] =
      check myEnumVariants [] :=
  exhaustiveness_c8.1 myEnumVariants ⟨.literal enumC, some (fun _ => true), "2"⟩ []
    (fun _ => true) rfl

/-- C10: an object pattern whose named sub-pattern references a field the
value does not have yields the ordinary result `noMatch` (not an error),
and the Case Selector then simply tries the later cases; concretely the
notebook's `object(blah=val)` arm misses on the `Link` chain and the later
nested-capture arm wins. -/
theorem object_missing_attr_c10 :
    (∀ tag f q ty fields, (RecordTy.ancestors ty).contains tag.name = true →
        lookupStr f fields = Option.none →
        matchPat (.object tag [] [(f, q)]) (.record ty fields) = .error .noMatch)
    ∧ (∀ (c : Case) cs v e, matchPat c.pattern v = .error e →
        select v (c :: cs) = select v cs)
    ∧ matchPat (.object objectTy [] [("blah", .capture "val")]) links = .error .noMatch
    ∧ select links linkCases =
        some ([("first", iv 5), ("third", link3), ("second", link4)],
          "Nested capture pattern with a mixture of variable and as") := by
  refine ⟨?_, ?_, rfl, rfl⟩
  · intro tag f q ty fields hanc hf
    have hmem : tag.name ∈ ty.ancestors := by simpa using hanc
    simp [matchPat, matchPos, matchNamed, hmem, hf, Bind.bind, Except.bind]
  · intro c cs v e h
    simp [select, h]

/-- C10 witness. -/
theorem object_missing_attr_c10_w :
    matchPat (.object objectTy [] [("blah", .wildcard)]) link1 = .error .noMatch :=
  object_missing_attr_c10.1 objectTy "blah" .wildcard linkTy
    [("val", iv 1), ("link", mkLink 0 (.scalar .none))] rfl rfl

/-- The per-entry results of a mapping pattern: for each listed key, the
value must be present and its sub-pattern must match; collects the
sub-environments in entry order. -/
def entryResults : List (Scalar × Pattern) → List (Scalar × Value) → Option (List Env)
  | [], _ => some []
  | (k, q) :: es, m =>
      match lookupKey k m with
      | Option.none => Option.none
      | some w =>
          match matchPat q w with
          | .error _ => Option.none
          | .ok ρ => (entryResults es m).map (ρ :: ·)

/-- Concatenation of a list of environments in order. -/
def envJoin : List Env → Env
  | [] => []
  | ρ :: ρs => ρ ++ envJoin ρs

/-- Membership in a joined environment list. -/
theorem mem_envJoin (q : String × Value) (ρs : List Env) :
    q ∈ envJoin ρs ↔ ∃ ρ ∈ ρs, q ∈ ρ := by
  induction ρs with
  | nil => simp [envJoin]
  | cons ρ ρs ih => simp [envJoin, List.mem_append, ih]

/-- Disjointness against a join is disjointness against every part. -/
theorem envDisjoint_join_iff (ρ : Env) (ρs : List Env) :
    EnvDisjoint ρ (envJoin ρs) ↔ ∀ ρ' ∈ ρs, EnvDisjoint ρ ρ' := by
  constructor
  · intro h ρ' hρ' p hp q hq
    exact h p hp q ((mem_envJoin q ρs).mpr ⟨ρ', hρ', hq⟩)
  · intro h p hp q hq
    obtain ⟨ρ', hρ', hqρ'⟩ := (mem_envJoin q ρs).mp hq
    exact h ρ' hρ' p hp q hqρ'

/-- A mapping pattern without a rest name is exactly its entries. -/
theorem matchPat_mapping_none (entries : List (Scalar × Pattern)) (m : List (Scalar × Value)) :
    matchPat (.mapping entries Option.none) (.mapping m) = matchEntries entries m := by
  cases h : matchEntries entries m <;> simp [matchPat, h, Bind.bind, Except.bind]

/-- Keys of the value that no entry names are never consulted: extending
the value with such a key leaves the entries' match unchanged. -/
theorem matchEntries_extraKey (entries : List (Scalar × Pattern)) (m : List (Scalar × Value))
    (k : Scalar) (w : Value) (h : ∀ e ∈ entries, e.1 ≠ k) :
    matchEntries entries ((k, w) :: m) = matchEntries entries m := by
  induction entries with
  | nil => rfl
  | cons e es ih =>
      obtain ⟨k', q⟩ := e
      have hk : ¬(k = k') := fun hkk => (h (k', q) (List.mem_cons_self _ _)) hkk.symm
      have hlk : lookupKey k' ((k, w) :: m) = lookupKey k' m := by simp [lookupKey, hk]
      simp only [matchEntries, hlk]
      rw [ih (fun e he => h e (List.mem_cons_of_mem _ he))]

/-- The entries of a mapping pattern match exactly when every listed key
is present, every sub-pattern matches, and the produced sub-environments
are pairwise disjoint; the overall environment is their join. -/
theorem matchEntries_ok_iff (es : List (Scalar × Pattern)) (m : List (Scalar × Value)) :
    ∀ ρ', matchEntries es m = .ok ρ' ↔
      ∃ ρs, entryResults es m = some ρs ∧ List.Pairwise EnvDisjoint ρs ∧ ρ' = envJoin ρs := by
  induction es with
  | nil =>
      intro ρ'
      simp [matchEntries, entryResults, envJoin, eq_comm]
  | cons e es ih =>
      obtain ⟨k, q⟩ := e
      intro ρ'
      simp only [matchEntries, entryResults]
      cases hl : lookupKey k m with
      | none => simp
      | some w =>
          cases hm : matchPat q w with
          | error f => simp [hm, Bind.bind, Except.bind]
          | ok ρ =>
              simp only [hm, Bind.bind, Except.bind]
              cases hr : matchEntries es m with
              | error f =>
                  simp only [hr]
                  constructor
                  · intro hcontra
                    simp at hcontra
                  · rintro ⟨ρs, hres, hpair, hρ'⟩
                    obtain ⟨ρs', hres', hcons⟩ := Option.map_eq_some'.mp hres
                    subst hcons
                    have := (ih (envJoin ρs')).mpr
                      ⟨ρs', hres', (List.pairwise_cons.mp hpair).2, rfl⟩
                    rw [hr] at this
                    cases this
              | ok ρ'' =>
                  simp only [hr]
                  obtain ⟨ρs', hres', hpair', hjoin'⟩ := (ih ρ'').mp hr
                  constructor
                  · intro hmerge
                    obtain ⟨hdisj, hcat⟩ := (mergeEnv_ok_iff ρ ρ'' ρ').mp hmerge
                    refine ⟨ρ :: ρs', by simp [hres'], ?_, ?_⟩
                    · exact List.pairwise_cons.mpr
                        ⟨(envDisjoint_join_iff ρ ρs').mp (hjoin' ▸ hdisj), hpair'⟩
                    · simp [envJoin, hcat, hjoin']
                  · rintro ⟨ρs, hres, hpair, hρ'⟩
                    obtain ⟨ρs'', hres'', hcons⟩ := Option.map_eq_some'.mp hres
                    subst hcons
                    rw [hres'] at hres''
                    cases hres''
                    have hpc := List.pairwise_cons.mp hpair
                    refine (mergeEnv_ok_iff ρ ρ'' ρ').mpr ⟨?_, ?_⟩
                    · rw [hjoin']
                      exact (envDisjoint_join_iff ρ ρs').mpr hpc.1
                    · rw [hjoin']
                      simpa [envJoin] using hρ'

/-- A successful collection of entry results certifies, for each listed
entry, presence of the key and success of the sub-pattern. -/
theorem entryResults_mem (es : List (Scalar × Pattern)) (m : List (Scalar × Value)) :
    ∀ ρs, entryResults es m = some ρs →
      ∀ e ∈ es, ∃ w ρ, lookupKey e.1 m = some w ∧ matchPat e.2 w = .ok ρ := by
  induction es with
  | nil => simp
  | cons e' es ih =>
      obtain ⟨k, q⟩ := e'
      intro ρs h
      simp only [entryResults] at h
      cases hl : lookupKey k m with
      | none => simp [hl] at h
      | some w =>
          simp only [hl] at h
          cases hm : matchPat q w with
          | error f => simp [hm] at h
          | ok ρ =>
              simp only [hm] at h
              obtain ⟨ρs', h', _⟩ := Option.map_eq_some'.mp h
              intro e he
              rcases List.mem_cons.mp he with rfl | he'
              · exact ⟨w, ρ, hl, hm⟩
              · exact ih ρs' h' e he'

/-- C6: mapping-pattern matching is partial — a key of the value that no
entry names is never consulted, the match succeeds exactly when every
listed key is present and its sub-pattern matches (with the produced
sub-environments compatible), and in particular
`Mapping([("a", Capture "x")])` on `{"a": 1, "b": 2}` succeeds binding
only `x = 1`, the key `"b"` being irrelevant. -/
theorem mapping_partial_c6 :
    (∀ entries m k w, (∀ e ∈ entries, e.1 ≠ k) →
        matchPat (.mapping entries Option.none) (.mapping ((k, w) :: m)) =
          matchPat (.mapping entries Option.none) (.mapping m))
    ∧ (∀ entries m ρ', matchPat (.mapping entries Option.none) (.mapping m) = .ok ρ' ↔
        ∃ ρs, entryResults entries m = some ρs ∧ List.Pairwise EnvDisjoint ρs ∧
          ρ' = envJoin ρs)
    ∧ (∀ entries m ρ', matchPat (.mapping entries Option.none) (.mapping m) = .ok ρ' →
        ∀ e ∈ entries, ∃ w ρ, lookupKey e.1 m = some w ∧ matchPat e.2 w = .ok ρ)
    ∧ matchPat (.mapping [(.str "a", .capture "x")] Option.none)
        (.mapping [(.str "a", iv 1), (.str "b", iv 2)]) = .ok [("x", iv 1)] := by
  refine ⟨?_, ?_, ?_, rfl⟩
  · intro entries m k w h
    rw [matchPat_mapping_none, matchPat_mapping_none, matchEntries_extraKey entries m k w h]
  · intro entries m ρ'
    rw [matchPat_mapping_none]
    exact matchEntries_ok_iff entries m ρ'
  · intro entries m ρ' h
    rw [matchPat_mapping_none] at h
    obtain ⟨ρs, hres, _, _⟩ := (matchEntries_ok_iff entries m ρ').mp h
    exact entryResults_mem entries m ρs hres

/-- C6 witness. -/
theorem mapping_partial_c6_w :
    matchPat (.mapping [(.str "a", .capture "x")] Option.none)
        (.mapping [(.str "b", iv 2), (.str "a", iv 1)]) =
      matchPat (.mapping [(.str "a", .capture "x")] Option.none)
        (.mapping [(.str "a", iv 1)]) :=
  mapping_partial_c6.1 [(.str "a", .capture "x")] [(.str "a", iv 1)] (.str "b") (iv 2)
    (by intro e he; simp only [List.mem_singleton] at he; subst he; decide)

/-- Reading a field through a consistent cache yields exactly the
underlying field value, and keeps the cache consistent. -/
theorem readField_consistent (fields : List (String × Value)) (c : Cache) (f : String)
    (h : Consistent c fields) :
    (readField fields c f).1 = lookupStr f fields ∧
      Consistent (readField fields c f).2 fields := by
  simp only [readField]
  cases hc : lookupStr f c with
  | some w =>
      have hw : lookupStr f fields = some w := h (f, w) (lookupStr_some_mem hc)
      exact ⟨hw.symm, h⟩
  | none =>
      cases hf : lookupStr f fields with
      | some w =>
          refine ⟨rfl, ?_⟩
          intro e he
          rcases List.mem_cons.mp he with rfl | he'
          · exact hf
          · exact h e he'
      | none => exact ⟨rfl, h⟩

/-- Cache-instrumented positional matching agrees with the pure Matcher on
any consistent cache, and preserves consistency. -/
theorem matchPosC_consistent (ps : List Pattern) : ∀ (fs : List String) fields c,
    Consistent c fields →
    (matchPosC fs ps fields c).1 = matchPos fs ps fields ∧
      Consistent (matchPosC fs ps fields c).2 fields := by
  induction ps with
  | nil => intro fs fields c h; cases fs <;> exact ⟨rfl, h⟩
  | cons p ps ih =>
      intro fs fields c h
      cases fs with
      | nil => exact ⟨rfl, h⟩
      | cons f fs =>
          obtain ⟨hfst, hsnd⟩ := readField_consistent fields c f h
          cases hrf : readField fields c f with
          | mk o c2 =>
              rw [hrf] at hfst hsnd
              simp only at hfst hsnd
              cases o with
              | none =>
                  refine ⟨?_, ?_⟩
                  · simp [matchPosC, matchPos, hrf, ← hfst]
                  · simp only [matchPosC, hrf]
                    exact hsnd
              | some w =>
                  cases hm : matchPat p w with
                  | error e =>
                      refine ⟨?_, ?_⟩
                      · simp [matchPosC, matchPos, hrf, ← hfst, hm, Bind.bind, Except.bind]
                      · simp only [matchPosC, hrf, hm]
                        exact hsnd
                  | ok ρ =>
                      obtain ⟨hfst2, hsnd2⟩ := ih fs fields c2 hsnd
                      cases hrec : matchPosC fs ps fields c2 with
                      | mk r2 c3 =>
                          rw [hrec] at hfst2 hsnd2
                          simp only at hfst2 hsnd2
                          cases r2 with
                          | error e =>
                              refine ⟨?_, ?_⟩
                              · simp [matchPosC, matchPos, hrf, ← hfst, hm, hrec,
                                  ← hfst2, Bind.bind, Except.bind]
                              · simp only [matchPosC, hrf, hm, hrec]
                                exact hsnd2
                          | ok ρ2 =>
                              refine ⟨?_, ?_⟩
                              · simp [matchPosC, matchPos, hrf, ← hfst, hm, hrec,
                                  ← hfst2, Bind.bind, Except.bind]
                              · simp only [matchPosC, hrf, hm, hrec]
                                exact hsnd2

/-- Cache-instrumented named matching agrees with the pure Matcher on any
consistent cache, and preserves consistency. -/
theorem matchNamedC_consistent (es : List (String × Pattern)) : ∀ fields c,
    Consistent c fields →
    (matchNamedC es fields c).1 = matchNamed es fields ∧
      Consistent (matchNamedC es fields c).2 fields := by
  induction es with
  | nil => intro fields c h; exact ⟨rfl, h⟩
  | cons e es ih =>
      obtain ⟨f, q⟩ := e
      intro fields c h
      obtain ⟨hfst, hsnd⟩ := readField_consistent fields c f h
      cases hrf : readField fields c f with
      | mk o c2 =>
          rw [hrf] at hfst hsnd
          simp only at hfst hsnd
          cases o with
          | none =>
              refine ⟨?_, ?_⟩
              · simp [matchNamedC, matchNamed, hrf, ← hfst]
              · simp only [matchNamedC, hrf]
                exact hsnd
          | some w =>
              cases hm : matchPat q w with
              | error e' =>
                  refine ⟨?_, ?_⟩
                  · simp [matchNamedC, matchNamed, hrf, ← hfst, hm, Bind.bind, Except.bind]
                  · simp only [matchNamedC, hrf, hm]
                    exact hsnd
              | ok ρ =>
                  obtain ⟨hfst2, hsnd2⟩ := ih fields c2 hsnd
                  cases hrec : matchNamedC es fields c2 with
                  | mk r2 c3 =>
                      rw [hrec] at hfst2 hsnd2
                      simp only at hfst2 hsnd2
                      cases r2 with
                      | error e' =>
                          refine ⟨?_, ?_⟩
                          · simp [matchNamedC, matchNamed, hrf, ← hfst, hm, hrec,
                              ← hfst2, Bind.bind, Except.bind]
                          · simp only [matchNamedC, hrf, hm, hrec]
                            exact hsnd2
                      | ok ρ2 =>
                          refine ⟨?_, ?_⟩
                          · simp [matchNamedC, matchNamed, hrf, ← hfst, hm, hrec,
                              ← hfst2, Bind.bind, Except.bind]
                          · simp only [matchNamedC, hrf, hm, hrec]
                            exact hsnd2

/-- C9: matching is a pure function of (pattern, value).  With the value
model's named-field accessor instrumented by a memoizing cache (the
explicit model of a cached computed field), an object match from any
consistent cache state returns exactly the pure Matcher's result and
leaves the cache consistent — the observable field values are unchanged;
hence two matches of the same pattern against the same value yield
identical results, from any pair of consistent caches and in particular
across repeated calls, as in the notebook's `Pair(manhattan=7, linear=5)`
example with its `cached_property`. -/
theorem match_pure_c9 :
    (∀ tag pos named ty fields c, Consistent c fields →
        (matchObjectC tag pos named (.record ty fields) c).1 =
          matchPat (.object tag pos named) (.record ty fields) ∧
        Consistent (matchObjectC tag pos named (.record ty fields) c).2 fields)
    ∧ (∀ tag pos named ty fields c c', Consistent c fields → Consistent c' fields →
        (matchObjectC tag pos named (.record ty fields) c).1 =
          (matchObjectC tag pos named (.record ty fields) c').1)
    ∧ (∀ tag pos named ty fields c, Consistent c fields →
        (matchObjectC tag pos named (.record ty fields)
            ((matchObjectC tag pos named (.record ty fields) c).2)).1 =
          (matchObjectC tag pos named (.record ty fields) c).1)
    ∧ (matchObjectC pairTy [] [("manhattan", .literal (iv 7)), ("linear", .literal (iv 5))]
          (.record pairTy pair34Fields) [("linear", iv 5)]).1 =
        matchPat (.object pairTy [] [("manhattan", .literal (iv 7)), ("linear", .literal (iv 5))])
          (.record pairTy pair34Fields) := by
  have hmain : ∀ tag pos named ty fields c, Consistent c fields →
      (matchObjectC tag pos named (.record ty fields) c).1 =
        matchPat (.object tag pos named) (.record ty fields) ∧
      Consistent (matchObjectC tag pos named (.record ty fields) c).2 fields := by
    intro tag pos named ty fields c h
    by_cases hanc : ty.ancestors.contains tag.name
    · have hmem : tag.name ∈ ty.ancestors := by simpa using hanc
      obtain ⟨hfst1, hsnd1⟩ := matchPosC_consistent pos tag.matchArgs fields c h
      cases hrp : matchPosC tag.matchArgs pos fields c with
      | mk r1 c1 =>
          rw [hrp] at hfst1 hsnd1
          simp only at hfst1 hsnd1
          cases r1 with
          | error e =>
              refine ⟨?_, ?_⟩
              · simp [matchObjectC, matchPat, hanc, hmem, hrp, ← hfst1, Bind.bind, Except.bind]
              · simp only [matchObjectC, hanc, if_true, hrp]
                exact hsnd1
          | ok ρ1 =>
              obtain ⟨hfst2, hsnd2⟩ := matchNamedC_consistent named fields c1 hsnd1
              cases hrn : matchNamedC named fields c1 with
              | mk r2 c2 =>
                  rw [hrn] at hfst2 hsnd2
                  simp only at hfst2 hsnd2
                  cases r2 with
                  | error e =>
                      refine ⟨?_, ?_⟩
                      · simp [matchObjectC, matchPat, hanc, hmem, hrp, hrn, ← hfst1, ← hfst2,
                          Bind.bind, Except.bind]
                      · simp only [matchObjectC, hanc, if_true, hrp, hrn]
                        exact hsnd2
                  | ok ρ2 =>
                      refine ⟨?_, ?_⟩
                      · simp [matchObjectC, matchPat, hanc, hmem, hrp, hrn, ← hfst1, ← hfst2,
                          Bind.bind, Except.bind]
                      · simp only [matchObjectC, hanc, if_true, hrp, hrn]
                        exact hsnd2
    · have hmem : tag.name ∉ ty.ancestors := by simpa using hanc
      refine ⟨?_, ?_⟩
      · simp [matchObjectC, matchPat, hanc, hmem]
      · simp only [matchObjectC, hanc, if_false]
        exact h
  refine ⟨hmain, ?_, ?_, ?_⟩
  · intro tag pos named ty fields c c' hc hc'
    rw [(hmain tag pos named ty fields c hc).1, (hmain tag pos named ty fields c' hc').1]
  · intro tag pos named ty fields c hc
    have h2 := (hmain tag pos named ty fields c hc).2
    rw [(hmain tag pos named ty fields _ h2).1, (hmain tag pos named ty fields c hc).1]
  · rfl

/-- C9 witness. -/
theorem match_pure_c9_w :
    (matchObjectC pairTy [] [("manhattan", .literal (iv 7))] (.record pairTy pair34Fields)
        [("linear", iv 5)]).1 =
      matchPat (.object pairTy [] [("manhattan", .literal (iv 7))])
        (.record pairTy pair34Fields) :=
  (match_pure_c9.1 pairTy [] [("manhattan", .literal (iv 7))] pairTy pair34Fields
      [("linear", iv 5)]
      (by intro e he; simp only [List.mem_singleton] at he; subst he; rfl)).1

end PatternCookbook
